import Mathlib

/-!
Verification of the Odin (Tesla) CAN database loader.

A shallow embedding of `cantools/database/can/formats/odin.py` together with
proofs about the loader's behaviour.  JSON documents are modelled by an
inductive `Json` type (numbers as integers: every numeric field relevant here
is integral), Python exceptions by `PyErr`, and each Python function of the
source file by a Lean function of the same name returning `Except PyErr _`.
-/

set_option autoImplicit false

/-- JSON values as consumed by the loader.  Numbers are modelled as integers
(every numeric field the loader's logic branches on is integral; fractional
floating-point values are outside this embedding).  Objects are association
lists in document order, mirroring Python dicts, which preserve insertion
order. -/
inductive Json where
  | null
  | bool (b : Bool)
  | num (n : Int)
  | str (s : String)
  | arr (elems : List Json)
  | obj (fields : List (String × Json))

/-- The Python exceptions that can escape the loader. -/
inductive PyErr where
  | typeError
  | keyError (key : String)
  | valueError (msg : String)
  | attributeError
  | jsonDecodeError
deriving DecidableEq

/-- Python truthiness of a JSON value (`if x:`): `None`, `False`, `0`, `""`,
`[]` and `{}` are falsy, everything else is truthy. -/
def Json.truthy : Json → Bool
  | .null => false
  | .bool b => b
  | .num n => n != 0
  | .str s => s != ""
  | .arr elems => !elems.isEmpty
  | .obj fields => !fields.isEmpty

/-- Tests whether the first list is an initial segment of the second. -/
def matchHead : List Char → List Char → Bool
  | [], _ => true
  | _ :: _, [] => false
  | p :: ps, c :: cs => p == c && matchHead ps cs

/-- Tests whether `pat` occurs as a contiguous run inside the second list. -/
def hasSeg (pat : List Char) : List Char → Bool
  | [] => matchHead pat []
  | c :: t => matchHead pat (c :: t) || hasSeg pat t

/-- Python's substring test `pat in s`. -/
def strContainsSeg (s pat : String) : Bool :=
  hasSeg pat.data s.data

/-- Python's `key in element`: key membership for a dict, substring test for a
string, element membership for a list (a string key can only equal string
elements), and `TypeError` for the non-container scalars. -/
def pyContains (element : Json) (key : String) : Except PyErr Bool :=
  match element with
  | .obj fields => .ok (fields.any (fun kv => kv.1 == key))
  | .str s => .ok (strContainsSeg s key)
  | .arr elems => .ok (elems.any (fun j => match j with | .str t => t == key | _ => false))
  | _ => .error .typeError

/-- Python's `element[key]` with a string key: dict lookup raising `KeyError`
when absent, `TypeError` on every other value (string, list and scalar indices
must not be strings). -/
def pySubscript (element : Json) (key : String) : Except PyErr Json :=
  match element with
  | .obj fields =>
      match fields.find? (fun kv => kv.1 == key) with
      | some kv => .ok kv.2
      | none => .error (.keyError key)
  | _ => .error .typeError

/-- Embeds `_get_value(element, key, default)` of the source: return `element[key]`
when `key in element`, otherwise the default.  For a non-dict `element` this
inherits Python's `in`/`[]` behaviour (substring test on strings followed by a
`TypeError` on the lookup). -/
def _get_value (element : Json) (key : String) (default : Json) : Except PyErr Json := do
  if (← pyContains element key) then pySubscript element key else Except.ok default

/-- Python's `int(x)` on a JSON value.  `int` of a string is modelled with
`String.toInt?`; no claim exercises string-encoded numbers. -/
def pyInt : Json → Except PyErr Int
  | .num n => .ok n
  | .bool b => .ok (if b then 1 else 0)
  | .str s =>
      match s.toInt? with
      | some n => .ok n
      | none => .error (.valueError "invalid literal for int")
  | _ => .error .typeError

/-- Python's `float(x)` on a JSON value.  Since the embedding models JSON
numbers as integers, the result is the integral value; `float` of a
non-numeric value raises as `int` does. -/
def pyFloat : Json → Except PyErr Int
  | .num n => .ok n
  | .bool b => .ok (if b then 1 else 0)
  | .str s =>
      match s.toInt? with
      | some n => .ok n
      | none => .error (.valueError "could not convert string to float")
  | _ => .error .typeError

/-- Python's `int(x) if x is not None else None` — the coercion pattern used for
`start_position`, `minimum`, `maximum` and `cycle_time`. -/
def optInt (j : Json) : Except PyErr (Option Int) :=
  match j with
  | .null => .ok none
  | v => do Except.ok (some (← pyInt v))

/-- Node-name lists (`senders`, `receivers`).  Python stores the raw value and
only iterates it into the node set; the embedding coerces to a string list at
read time (every claim-relevant document supplies arrays of strings). -/
def asStrList : Json → Except PyErr (List String)
  | .arr elems =>
      elems.mapM (fun j => match j with | .str s => Except.ok s | _ => Except.error PyErr.typeError)
  | _ => .error .typeError

/-- Python's `.items()`: the field list of a dict in insertion order,
`AttributeError` on anything else. -/
def pyItems : Json → Except PyErr (List (String × Json))
  | .obj fields => .ok fields
  | _ => .error .attributeError

/-- Python `==` of a JSON value against a string literal: false across
types. -/
def jsonStrEq (j : Json) (s : String) : Bool :=
  match j with
  | .str t => t == s
  | _ => false

/-- Python `x == True` for a JSON value (`1 == True` holds in Python). -/
def jsonIsTrue (j : Json) : Bool :=
  match j with
  | .bool b => b
  | .num n => n == 1
  | _ => false

/-- A Python dict key built from a JSON scalar.  `True`/`1` and `False`/`0`
hash and compare equal in Python, so booleans canonicalise to numbers; lists
and dicts are unhashable (`none`). -/
inductive PyKey where
  | knull
  | knum (n : Int)
  | kstr (s : String)
deriving DecidableEq

/-- The dict key denoted by a JSON value, `none` when unhashable. -/
def Json.pyKey : Json → Option PyKey
  | .null => some .knull
  | .bool b => some (.knum (if b then 1 else 0))
  | .num n => some (.knum n)
  | .str s => some (.kstr s)
  | .arr _ => none
  | .obj _ => none

/-- Python dict assignment `d[k] = v` on an association list: overwrite in
place when the key exists (keeping the original key object and position),
append otherwise. -/
def dictUpd (m : List (PyKey × String)) (k : PyKey) (v : String) : List (PyKey × String) :=
  if m.any (fun e => e.1 == k) then
    m.map (fun e => if e.1 == k then (e.1, v) else e)
  else
    m ++ [(k, v)]

/-- Python dict lookup on an association list. -/
def dictFind (m : List (PyKey × String)) (k : PyKey) : Option String :=
  (m.find? (fun e => e.1 == k)).map (fun e => e.2)

/-- The two byte-order tags computed by `_load_signal`. -/
inductive ByteOrder where
  | little_endian
  | big_endian
deriving DecidableEq

/-- Embeds `_start_bit(offset, byte_order)` (odin.py lines 27–32): big-endian offsets
are remapped by `8 * (offset // 8) + (7 - (offset % 8))`, little-endian
offsets pass through unchanged.  A missing offset is Python's `None`: the
big-endian arithmetic raises `TypeError` on it, the little-endian branch
returns it untouched.  (`/` and `%` on `Int` here agree with Python's `//`
and `%` for the positive divisor 8.) -/
def _start_bit (offset : Option Int) (byte_order : ByteOrder) : Except PyErr (Option Int) :=
  match byte_order, offset with
  | .big_endian, some o => .ok (some (8 * (o / 8) + (7 - o % 8)))
  | .big_endian, none => .error .typeError
  | .little_endian, o => .ok o

/-- The signal object produced by `_load_signal` — the `Signal` class itself
is an external collaborator whose shape follows the spec's `SignalSpec`
(§3): a plain record, its constructor stores the fields unvalidated. -/
structure Signal where
  name : String
  start : Option Int
  length : Int
  receivers : List String
  byte_order : ByteOrder
  is_signed : Bool
  scale : Int
  offset : Int
  minimum : Option Int
  maximum : Option Int
  unit : Option Json
  choices : Option (List (PyKey × String))
  comment : Option String
  is_float : Bool
  decimal_scale : Int
  decimal_offset : Int
  multiplexer_ids : Option (List Int) := none
  is_multiplexed : Bool := false
  is_multiplexer : Bool := false
  multiplexer_signal : Option String := none

/-- The `value_description` inversion block of `_load_signal` (odin.py lines
65–69): when the table is truthy (present, a mapping, and non-empty), invert
label → value into value → label, later labels overwriting earlier ones that
denote the same dict key; unhashable values raise `TypeError`. -/
def _invert_value_description (vdRaw : Json) : Except PyErr (Option (List (PyKey × String))) :=
  if vdRaw.truthy then do
    let entries ← pyItems vdRaw
    let tbl ← entries.foldlM (fun (tbl : List (PyKey × String)) (kv : String × Json) =>
      match kv.2.pyKey with
      | some pk => Except.ok (dictUpd tbl pk kv.1)
      | none => Except.error PyErr.typeError) []
    Except.ok (some tbl)
  else Except.ok none

/-- Embeds `_load_signal(signal_json, name)` (odin.py lines 34–95). -/
def _load_signal (signal_json : Json) (name : String) : Except PyErr Signal := do
  let length ← pyInt (← _get_value signal_json "width" (.num 1))
  let offsetRaw ← _get_value signal_json "start_position" .null
  let offset ← optInt offsetRaw
  let signedRaw ← _get_value signal_json "signedness" (.str "UNSIGNED")
  let is_signed := jsonStrEq signedRaw "SIGNED"
  let endianRaw ← _get_value signal_json "endianness" (.str "LITTLE")
  let byte_order := if jsonStrEq endianRaw "BIG" then ByteOrder.big_endian
                    else ByteOrder.little_endian
  let minimum ← optInt (← _get_value signal_json "minimum" .null)
  let maximum ← optInt (← _get_value signal_json "maximum" .null)
  let receivers ← asStrList (← _get_value signal_json "receivers" (.arr []))
  let slope ← pyFloat (← _get_value signal_json "scale" (.num 1))
  let unitRaw ← _get_value signal_json "units" .null
  let unit : Option Json := match unitRaw with | .null => none | v => some v
  let intercept ← pyFloat (← _get_value signal_json "offset" (.num 0))
  let vdRaw ← _get_value signal_json "value_description" .null
  let labels ← _invert_value_description vdRaw
  let start ← _start_bit offset byte_order
  let signal : Signal :=
    { name := name, start := start, length := length, receivers := receivers,
      byte_order := byte_order, is_signed := is_signed, scale := slope,
      offset := intercept, minimum := minimum, maximum := maximum, unit := unit,
      choices := labels, comment := none, is_float := false,
      decimal_scale := slope, decimal_offset := intercept }
  let muxIdRaw ← _get_value signal_json "mux_id" .null
  let signal ←
    match muxIdRaw with
    | .null => Except.ok signal
    | v => do
        let m ← pyInt v
        Except.ok { signal with multiplexer_ids := some [m], is_multiplexed := true }
  let isMuxerRaw ← _get_value signal_json "is_muxer" .null
  let signal :=
    if (match isMuxerRaw with | .null => false | v => jsonIsTrue v) then
      { signal with is_multiplexer := true }
    else signal
  Except.ok signal

/-- Embeds `_parse_signals(signals_json)` (odin.py lines 97–103): one signal per
entry of the `signals` record, in record order (`_load_signal` never returns
Python's `None`, so the `is not None` filter in the source keeps every
signal). -/
def _parse_signals (signals_json : Json) : Except PyErr (List Signal) := do
  let items ← pyItems signals_json
  items.mapM (fun kv => _load_signal kv.2 kv.1)

/-- Modelled from the spec: the loader imports `start_bit` from
`cantools.database.utils`, whose source is not part of this snapshot.  Per
the spec (§3 `SignalSpec.start_bit`, §4.4 step 5, glossary "canonical start
bit"), the length-inference sort key is the signal's canonical start bit,
i.e. the normalized start stored in the signal; a signal whose start position
was absent (possible only for little-endian records) has no key (`none`). -/
def start_bit (signal : Signal) : Option Int :=
  signal.start

/-- The message object produced by `_load_message` — the `Message` class is an
external collaborator whose shape follows the spec's `MessageSpec` (§3): a
plain record, `strict` threaded through unchanged. -/
structure Message where
  frame_id : Int
  is_extended_frame : Bool
  name : String
  length : Int
  senders : List String
  send_type : Option Json
  cycle_time : Option Int
  signals : List Signal
  comment : Option String
  bus_name : Option Json
  strict : Bool

/-- Truthiness of `signal.multiplexer_ids and len(signal.multiplexer_ids) > 0`
(odin.py line 125). -/
def muxIdsTruthy (s : Signal) : Bool :=
  match s.multiplexer_ids with
  | some ids => decide (ids ≠ [])
  | none => false

/-- Performs `signal.multiplexer_signal = multiplexer` on the signals the loop
of odin.py lines 124–127 selects. -/
def _set_mux_signal (muxName : String) (s : Signal) : Signal :=
  if muxIdsTruthy s then { s with multiplexer_signal := some muxName } else s

/-- The multiplexer-resolution block of `_load_message` (odin.py lines
118–127): scan for the last signal marked `is_multiplexer`; when one was
found and its name is truthy (`if multiplexer:`), give every signal with a
non-empty `multiplexer_ids` that name as `multiplexer_signal`. -/
def _assign_multiplexer (signals : List Signal) : List Signal :=
  let multiplexer : Option String :=
    signals.foldl (fun acc s => if s.is_multiplexer then some s.name else acc) none
  match multiplexer with
  | some muxName =>
      if muxName ≠ "" then signals.map (_set_mux_signal muxName)
      else signals
  | none => signals

/-- The `auto` length-inference block of `_load_message` (odin.py lines
131–133), reached only for a non-empty signal list: sort by the canonical
start-bit key (Python's `sorted` is a stable comparison sort, modelled by
`List.insertionSort`, which is also stable), take the last, and cover it with
whole bytes.  Python computes every sort key before comparing; a missing key
(`None`) makes the first comparison, or the final addition, raise
`TypeError`. -/
def _resolve_auto_length (signals : List Signal) : Except PyErr Int := do
  let keyed ← signals.mapM (fun s =>
    match start_bit s with
    | some k => Except.ok (s, k)
    | none => Except.error PyErr.typeError)
  let sortedSigs := keyed.insertionSort (fun a b => a.2 ≤ b.2)
  match sortedSigs.getLast? with
  | some last => Except.ok ((last.2 + last.1.length + 7) / 8)
  | none => Except.error PyErr.typeError

/-- The length-resolution block of `_load_message` (odin.py lines 129–136):
the sentinel `auto` triggers inference (0 for an empty signal list), any other
raw value is parsed as an integer verbatim. -/
def _resolve_length (lengthRaw : Json) (signals : List Signal) : Except PyErr Int :=
  if jsonStrEq lengthRaw "auto" then
    if signals.isEmpty then Except.ok (0 : Int)
    else _resolve_auto_length signals
  else pyInt lengthRaw

/-- Embeds `_load_message(message, name, bus_name, strict)` (odin.py lines
105–148). -/
def _load_message (message : Json) (name : String) (bus_name : Option Json) (strict : Bool) :
    Except PyErr Message := do
  let frame_id ← pyInt (← _get_value message "message_id" (.num 0))
  let lengthRaw ← _get_value message "length_bytes" (.str "auto")
  let cycle_time ← optInt (← _get_value message "cycle_time" .null)
  let senders ← asStrList (← _get_value message "senders" (.arr []))
  let sendTypeRaw ← _get_value message "send_type" .null
  let send_type : Option Json := match sendTypeRaw with | .null => none | v => some v
  let signals := _assign_multiplexer (← _parse_signals (← _get_value message "signals" (.obj [])))
  let length ← _resolve_length lengthRaw signals
  Except.ok
    { frame_id := frame_id, is_extended_frame := false, name := name,
      length := length, senders := senders, send_type := send_type,
      cycle_time := cycle_time, signals := signals, comment := none,
      bus_name := bus_name, strict := strict }

/-- The database handed back by `load_string` — `InternalDatabase` is an
external collaborator (spec §3 `Database`).  Python materialises the node set
as a list of comment-free `Node` objects in unspecified order; the embedding
keeps the set itself. -/
structure InternalDatabase where
  messages : List Message
  nodes : Finset String
  buses : List Json
  version : String

/-- The `try` block of `load_string` (odin.py lines 156–159): JSON decoding
(modelled by the `Except Unit Json` input, `error` standing for text that is
not valid JSON) followed by the two root lookups.  `json.loads` failures are
`JSONDecodeError`, not `KeyError`. -/
def headerCore (input : Except Unit Json) : Except PyErr Json := do
  let odin ← input.mapError (fun _ => PyErr.jsonDecodeError)
  let messagesJson ← pySubscript odin "messages"
  let _busJson ← pySubscript odin "busMetadata"
  Except.ok messagesJson

/-- The root error message raised by `load_string` (odin.py lines 160–163). -/
def rootKeysErrMsg : String :=
  "Expected \"messages\" and \"busMetadata\" at root of the Odin JSON file"

/-- Embeds `try ... except KeyError: raise ValueError(...)`: only `KeyError` is
rewritten; decode errors and `TypeError` propagate. -/
def loadHeader (input : Except Unit Json) : Except PyErr Json :=
  match headerCore input with
  | .error (.keyError _) => .error (.valueError rootKeysErrMsg)
  | r => r

/-- Performs `nodes.update(signal.receivers)` folded over a message's signals. -/
def collectSignalNodes (nodes : Finset String) (signals : List Signal) : Finset String :=
  signals.foldl (fun acc s => acc ∪ s.receivers.toFinset) nodes

/-- One iteration of the message loop of `load_string` (odin.py lines
180–185): build the message, fold its senders and its signals' receivers into
the node set, append it. -/
def loadStep (bus : Option Json) (strict : Bool)
    (acc : List Message × Finset String) (entry : String × Json) :
    Except PyErr (List Message × Finset String) := do
  let new_message ← _load_message entry.2 entry.1 bus strict
  let nodes := acc.2 ∪ new_message.senders.toFinset
  let nodes := collectSignalNodes nodes new_message.signals
  Except.ok (acc.1 ++ [new_message], nodes)

/-- The bus-name determination of `load_string` (odin.py lines 166–168):
`bus = messages_json['name']` when `'name' in messages_json`, else `None`. -/
def readBusName (messagesJson : Json) (hasName : Bool) : Except PyErr (Option Json) :=
  if hasName then do
    let v ← pySubscript messagesJson "name"
    Except.ok (some v)
  else Except.ok none

/-- Embeds `load_string(string, strict)` (odin.py lines 150–190).  The bus name is
read from the `messages` record's `name` key; the loop then iterates **every**
entry of the `messages` record, the `name` entry included. -/
def load_string (input : Except Unit Json) (strict : Bool) :
    Except PyErr InternalDatabase := do
  let messagesJson ← loadHeader input
  let hasName ← pyContains messagesJson "name"
  let bus ← readBusName messagesJson hasName
  let buses : List Json :=
    match bus with
    | some v => if v.truthy then [v] else []
    | none => []
  let entries ← pyItems messagesJson
  let result ← entries.foldlM (loadStep bus strict) ([], (∅ : Finset String))
  Except.ok
    { messages := result.1, nodes := result.2, buses := buses, version := "0" }

/-- Two messages carrying the same participants up to list order: their
sender lists are permutations, and their signal lists carry pointwise
permuted receiver lists (used to state order-independence of the node
set). -/
def sameParticipants (m m' : Message) : Prop :=
  m.senders.Perm m'.senders ∧
  List.Forall₂ (fun s s' : Signal => s.receivers.Perm s'.receivers) m.signals m'.signals

/-! ## Concrete documents used by individual claims -/

/-- A fallback signal value used when destructuring loader results. -/
def emptySignal : Signal :=
  { name := "", start := none, length := 0, receivers := [],
    byte_order := .little_endian, is_signed := false, scale := 0, offset := 0,
    minimum := none, maximum := none, unit := none, choices := none,
    comment := none, is_float := false, decimal_scale := 0, decimal_offset := 0 }

/-- A fallback message value used when destructuring loader results. -/
def emptyMessage : Message :=
  { frame_id := 0, is_extended_frame := false, name := "", length := 0,
    senders := [], send_type := none, cycle_time := none, signals := [],
    comment := none, bus_name := none, strict := false }

/-- A fallback database value used when destructuring loader results. -/
def emptyDb : InternalDatabase :=
  { messages := [], nodes := ∅, buses := [], version := "" }

/-- A document whose `messages` record holds both the bus name (under `name`)
and one real message `M1`. -/
def docC2 : Json :=
  .obj [("messages", .obj [("name", .str "bus0"),
                           ("M1", .obj [("message_id", .num 5)])]),
        ("busMetadata", .obj [])]

/-- A valid JSON object missing the top-level `messages` key. -/
def docC5 : Json :=
  .obj [("busMetadata", .obj [])]

/-- A document whose `messages` record carries an empty-string bus name. -/
def docC7 : Json :=
  .obj [("messages", .obj [("name", .str "")]), ("busMetadata", .obj [])]

/-- A document with a little-endian signal that omits `start_position`, in a
message with an explicit byte length. -/
def docC8 : Json :=
  .obj [("messages", .obj [("M1", .obj [
          ("length_bytes", .num 2),
          ("signals", .obj [("S", .obj [("width", .num 8)])])])]),
        ("busMetadata", .obj [])]

/-- Senders `["A","B"]` and receivers `["B","C"]` — the node-set example. -/
def docC9 : Json :=
  .obj [("messages", .obj [("M1", .obj [
          ("length_bytes", .num 1),
          ("senders", .arr [.str "A", .str "B"]),
          ("signals", .obj [("S", .obj [
            ("start_position", .num 0),
            ("receivers", .arr [.str "B", .str "C"])])])])]),
        ("busMetadata", .obj [])]

/-- The database loaded from `docC9`. -/
def dbC9 : InternalDatabase :=
  match load_string (.ok docC9) true with
  | .ok db => db
  | .error _ => emptyDb

/-- The single message of `dbC9`. -/
def msgC9 : Message :=
  (dbC9.messages.head?).getD emptyMessage

/-- A message record whose multiplexer signal is named by the empty string:
the last signal marked `is_muxer` exists, yet `if multiplexer:` is false. -/
def recC4 : Json :=
  .obj [("length_bytes", .num 1),
        ("signals", .obj [
          ("", .obj [("start_position", .num 0), ("is_muxer", .bool true)]),
          ("S", .obj [("start_position", .num 0), ("mux_id", .num 2)])])]

/-- A message record with a multiplexer `M` and a multiplexed signal `S`. -/
def recC4b : Json :=
  .obj [("signals", .obj [
          ("M", .obj [("start_position", .num 0), ("width", .num 8), ("is_muxer", .bool true)]),
          ("S", .obj [("start_position", .num 8), ("width", .num 8), ("mux_id", .num 2)])])]

/-- The message loaded from `recC4b`. -/
def msgC4 : Message :=
  match _load_message recC4b "MSG" none true with
  | .ok m => m
  | .error _ => emptyMessage

/-- The last signal of `msgC4` marked `is_multiplexer`. -/
def muxC4 : Signal :=
  (msgC4.signals.reverse.find? (fun s => s.is_multiplexer)).getD emptySignal

/-- The multiplexed signal `S` of `msgC4`. -/
def sigC4S : Signal :=
  (msgC4.signals.getLast?).getD emptySignal

/-- A message record with implicit length and signals at bits `[0,8)` and
`[16,24)`. -/
def recC3 : Json :=
  .obj [("signals", .obj [
          ("A", .obj [("start_position", .num 0), ("width", .num 8)]),
          ("B", .obj [("start_position", .num 16), ("width", .num 8)])])]

/-- The message loaded from `recC3`. -/
def msgC3 : Message :=
  match _load_message recC3 "M" none true with
  | .ok m => m
  | .error _ => emptyMessage

/-- A signal record with `value_description = {"OFF": 0, "ON": 1}`. -/
def recC6 : Json :=
  .obj [("start_position", .num 0),
        ("value_description", .obj [("OFF", .num 0), ("ON", .num 1)])]

/-- The signal loaded from `recC6`. -/
def sigC6 : Signal :=
  match _load_signal recC6 "S" with
  | .ok s => s
  | .error _ => emptySignal

/-- The database loaded from `docC2`. -/
def dbC2 : InternalDatabase :=
  match load_string (.ok docC2) true with
  | .ok db => db
  | .error _ => emptyDb

/-- The `messages` record of `docC2`. -/
def mjC2 : Json :=
  .obj [("name", .str "bus0"), ("M1", .obj [("message_id", .num 5)])]

/-- A signal record whose `value_description` is present but empty. -/
def recC10 : Json :=
  .obj [("start_position", .num 0), ("value_description", .obj [])]

/-- The signal loaded from `recC10`. -/
def sigC10 : Signal :=
  match _load_signal recC10 "S" with
  | .ok s => s
  | .error _ => emptySignal

/-- A little-endian signal record without a `start_position`. -/
def recC8 : Json :=
  .obj [("width", .num 8)]

/-- The signal loaded from `recC8`. -/
def sigC8 : Signal :=
  match _load_signal recC8 "S" with
  | .ok s => s
  | .error _ => emptySignal

/-! ## Generalities about `Except` computations -/

@[simp] theorem ok_bind {E A B : Type} (a : A) (f : A → Except E B) :
    (Except.ok a >>= f) = f a := rfl

@[simp] theorem error_bind {E A B : Type} (e : E) (f : A → Except E B) :
    ((Except.error e : Except E A) >>= f) = Except.error e := rfl

@[simp] theorem mapError_ok {E F A : Type} (f : E → F) (a : A) :
    (Except.ok a : Except E A).mapError f = Except.ok a := rfl

@[simp] theorem mapError_error {E F A : Type} (f : E → F) (e : E) :
    (Except.error e : Except E A).mapError f = Except.error (f e) := rfl

theorem bind_ok_iff {E A B : Type} {x : Except E A} {f : A → Except E B} {b : B} :
    x >>= f = Except.ok b ↔ ∃ a, x = Except.ok a ∧ f a = Except.ok b := by
  cases x with
  | ok a => simp
  | error e => simp

/-! ## Structural facts about the loader -/

/-- Unpacking a successful `_load_signal` run: the coercions of the fields
relevant to start-bit normalization, value-description inversion and
multiplexing all succeeded, and the built signal's fields are determined by
them.  (`multiplexer_signal` is never set by `_load_signal`.) -/
theorem load_signal_fields {signal_json : Json} {name : String} {s : Signal}
    (h : _load_signal signal_json name = .ok s) :
    ∃ offsetRaw offset endianRaw vdRaw labels start muxIdRaw,
      _get_value signal_json "start_position" .null = .ok offsetRaw ∧
      optInt offsetRaw = .ok offset ∧
      _get_value signal_json "endianness" (.str "LITTLE") = .ok endianRaw ∧
      _get_value signal_json "value_description" .null = .ok vdRaw ∧
      _invert_value_description vdRaw = .ok labels ∧
      _start_bit offset
        (if jsonStrEq endianRaw "BIG" = true then ByteOrder.big_endian
         else ByteOrder.little_endian) = .ok start ∧
      _get_value signal_json "mux_id" .null = .ok muxIdRaw ∧
      s.name = name ∧
      s.start = start ∧
      s.byte_order = (if jsonStrEq endianRaw "BIG" = true then ByteOrder.big_endian
                      else ByteOrder.little_endian) ∧
      s.choices = labels ∧
      s.multiplexer_signal = none ∧
      (muxIdRaw = .null → s.multiplexer_ids = none ∧ s.is_multiplexed = false) ∧
      (muxIdRaw ≠ .null →
        ∃ m, pyInt muxIdRaw = .ok m ∧
          s.multiplexer_ids = some [m] ∧ s.is_multiplexed = true) := by
  simp only [_load_signal, bind_ok_iff, ok_bind, Except.ok.injEq] at h
  obtain ⟨widthRaw, hw, len, hlen, offsetRaw, hoffR, offset, hoff, signedRaw, hsg,
    endianRaw, hend, minRaw, hminR, mn, hmn, maxRaw, hmaxR, mx, hmx,
    recvRaw, hrecvR, recv, hrecv, scaleRaw, hscaleR, slope, hslope,
    unitsRaw, hunits, offRaw, hofR, intercept, hint, vdRaw, hvd, labels, hlab,
    start, hstart, muxIdRaw, hmux, htail⟩ := h
  refine ⟨offsetRaw, offset, endianRaw, vdRaw, labels, start, muxIdRaw,
    hoffR, hoff, hend, hvd, hlab, hstart, hmux, ?_⟩
  cases muxIdRaw with
  | null =>
      simp only [bind_ok_iff, ok_bind, Except.ok.injEq] at htail
      obtain ⟨imR, him, hs⟩ := htail
      subst hs
      refine ⟨by split <;> rfl, by split <;> rfl, by split <;> rfl,
        by split <;> rfl, by split <;> rfl, ?_, ?_⟩
      · intro _
        exact ⟨by split <;> rfl, by split <;> rfl⟩
      · intro hne
        exact absurd rfl hne
  | bool b =>
      simp only [bind_ok_iff, ok_bind, Except.ok.injEq] at htail
      obtain ⟨m, hm, imR, him, hs⟩ := htail
      subst hs
      refine ⟨by split <;> rfl, by split <;> rfl, by split <;> rfl,
        by split <;> rfl, by split <;> rfl, ?_, ?_⟩
      · intro h'; exact absurd h' (by simp)
      · intro _
        exact ⟨m, hm, by split <;> rfl, by split <;> rfl⟩
  | num n =>
      simp only [bind_ok_iff, ok_bind, Except.ok.injEq] at htail
      obtain ⟨m, hm, imR, him, hs⟩ := htail
      subst hs
      refine ⟨by split <;> rfl, by split <;> rfl, by split <;> rfl,
        by split <;> rfl, by split <;> rfl, ?_, ?_⟩
      · intro h'; exact absurd h' (by simp)
      · intro _
        exact ⟨m, hm, by split <;> rfl, by split <;> rfl⟩
  | str t =>
      simp only [bind_ok_iff, ok_bind, Except.ok.injEq] at htail
      obtain ⟨m, hm, imR, him, hs⟩ := htail
      subst hs
      refine ⟨by split <;> rfl, by split <;> rfl, by split <;> rfl,
        by split <;> rfl, by split <;> rfl, ?_, ?_⟩
      · intro h'; exact absurd h' (by simp)
      · intro _
        exact ⟨m, hm, by split <;> rfl, by split <;> rfl⟩
  | arr elems =>
      simp only [bind_ok_iff, ok_bind, Except.ok.injEq] at htail
      obtain ⟨m, hm, imR, him, hs⟩ := htail
      subst hs
      refine ⟨by split <;> rfl, by split <;> rfl, by split <;> rfl,
        by split <;> rfl, by split <;> rfl, ?_, ?_⟩
      · intro h'; exact absurd h' (by simp)
      · intro _
        exact ⟨m, hm, by split <;> rfl, by split <;> rfl⟩
  | obj fields =>
      simp only [bind_ok_iff, ok_bind, Except.ok.injEq] at htail
      obtain ⟨m, hm, imR, him, hs⟩ := htail
      subst hs
      refine ⟨by split <;> rfl, by split <;> rfl, by split <;> rfl,
        by split <;> rfl, by split <;> rfl, ?_, ?_⟩
      · intro h'; exact absurd h' (by simp)
      · intro _
        exact ⟨m, hm, by split <;> rfl, by split <;> rfl⟩

/-! ## The claims -/

/-- C1: for every non-negative raw offset `o` the bit position normalizer
returns `8*(o/8) + (7 - o%8)` when the byte order is big-endian, and `o`
unchanged when it is little-endian; in particular the big-endian results at
the boundary offsets 0, 1, 7, 8, 9, 15, 16 are 7, 6, 0, 15, 14, 8, 23. -/
theorem C1_bit_position_normalizer :
    (∀ o : Int, 0 ≤ o →
        _start_bit (some o) .big_endian = .ok (some (8 * (o / 8) + (7 - o % 8))) ∧
        _start_bit (some o) .little_endian = .ok (some o)) ∧
    ([0, 1, 7, 8, 9, 15, 16].map (fun o : Int => _start_bit (some o) .big_endian) =
      [.ok (some 7), .ok (some 6), .ok (some 0), .ok (some 15), .ok (some 14),
       .ok (some 8), .ok (some 23)]) :=
  ⟨fun _ _ => ⟨rfl, rfl⟩, rfl⟩

/-- Witness for C1 at the multi-byte offset 9. -/
theorem C1_bit_position_normalizer_witness :
    (0 ≤ (9 : Int)) ∧
    _start_bit (some 9) .big_endian = .ok (some (8 * ((9 : Int) / 8) + (7 - (9 : Int) % 8))) ∧
    _start_bit (some 9) .little_endian = .ok (some 9) :=
  ⟨by decide, (C1_bit_position_normalizer.1 9 (by decide)).1,
    (C1_bit_position_normalizer.1 9 (by decide)).2⟩

/-- C2 (the code violates the claim): loading a document whose `messages`
record is `{"name": "bus0", "M1": {"message_id": 5}}` yields TWO messages —
the loop of `load_string` iterates the `name` entry as well, building from
the bus-name string a message named `name` with frame id 0, length 0 and no
signals — while the claim states that only the entries other than `name` are
built and that no message named `name` appears in the output. -/
theorem C2_bus_name_entry_parsed_as_message :
    (load_string (.ok docC2) true).map
        (fun db => (db.messages.map (fun m => (m.name, m.frame_id, m.length, m.signals.length)),
                    db.buses)) =
      .ok ([("name", 0, 0, 0), ("M1", 5, 0, 0)], [.str "bus0"]) := rfl

/-- C10: a signal record whose `value_description` is present but an empty
mapping yields an absent `choices` (`none`), not an empty mapping — the
inversion only runs when the table is truthy, i.e. non-empty. -/
theorem C10_empty_value_description (signal_json : Json) (name : String) (s : Signal)
    (h : _load_signal signal_json name = .ok s)
    (hvd : _get_value signal_json "value_description" .null = .ok (.obj [])) :
    s.choices = none := by
  obtain ⟨offsetRaw, offset, endianRaw, vdRaw, labels, start, muxIdRaw,
    _, _, _, hvd', hlab, _, _, _, _, _, hch, _, _, _⟩ := load_signal_fields h
  rw [hvd] at hvd'
  injection hvd' with hvd''
  subst hvd''
  simp only [_invert_value_description, Json.truthy, List.isEmpty_nil,
    Bool.not_true, if_neg, Bool.false_eq_true, not_false_eq_true,
    if_false, Except.ok.injEq] at hlab
  rw [hch, ← hlab]

/-- Witness for C10: the signal built from `recC10`. -/
theorem C10_empty_value_description_witness : sigC10.choices = none :=
  C10_empty_value_description recC10 "S" sigC10 rfl rfl

/-- C8 counterexample: the only signal of `docC8` omits `start_position` and
is little-endian (the default); the load succeeds, producing a signal with an
absent start inside a 2-byte message — refuting the claim that a missing
start position makes loading fail at normalization time regardless of the
signal's byte order. -/
theorem C8_counterexample :
    (load_string (.ok docC8) true).map
        (fun db => db.messages.map (fun m => (m.length, m.signals.map (fun s => (s.name, s.start))))) =
      .ok [(2, [("S", none)])] := rfl

/-- C8 (amended): a signal record that omits `start_position` can only be
built for the little-endian byte order, and then carries an absent start; for
big-endian byte order the bit-position normalizer itself raises `TypeError`
on the missing offset, so no signal is produced and the load aborts. -/
theorem C8_missing_start_position :
    (∀ (signal_json : Json) (name : String) (s : Signal),
        _load_signal signal_json name = .ok s →
        _get_value signal_json "start_position" .null = .ok .null →
        s.byte_order = .little_endian ∧ s.start = none) ∧
    _start_bit none .big_endian = .error .typeError := by
  refine ⟨?_, rfl⟩
  intro signal_json name s h hmiss
  obtain ⟨offsetRaw, offset, endianRaw, vdRaw, labels, start, muxIdRaw,
    hoffR, hoff, _, _, _, hstart, _, _, hsstart, hbo, _, _, _, _⟩ := load_signal_fields h
  rw [hmiss] at hoffR
  injection hoffR with hoffR'
  subst hoffR'
  simp only [optInt, Except.ok.injEq] at hoff
  subst hoff
  by_cases hbig : jsonStrEq endianRaw "BIG" = true
  · rw [if_pos hbig] at hstart
    exact absurd hstart (by simp [_start_bit])
  · rw [if_neg hbig] at hstart hbo
    simp only [_start_bit, Except.ok.injEq] at hstart
    exact ⟨hbo, by rw [hsstart, ← hstart]⟩

/-- Witness for C8: the little-endian signal built from `recC8`. -/
theorem C8_missing_start_position_witness :
    sigC8.byte_order = .little_endian ∧ sigC8.start = none :=
  C8_missing_start_position.1 recC8 "S" sigC8 rfl rfl

/-- C5 counterexample: a valid JSON object missing `messages` fails with the
format error, but its message reads "Expected \"messages\" and
\"busMetadata\" at root of the Odin JSON file", not "Expected 'messages' and
'busMetadata' at root of the document" as the claim quotes. -/
theorem C5_counterexample :
    load_string (.ok docC5) true = .error (.valueError rootKeysErrMsg) ∧
    rootKeysErrMsg ≠ "Expected 'messages' and 'busMetadata' at root of the document" :=
  ⟨rfl, by decide⟩

/-- C5 (amended): every JSON-object document missing either top-level key
`messages` or `busMetadata` fails with the format error whose message states
"Expected \"messages\" and \"busMetadata\" at root of the Odin JSON file"
(and hence produces no database); text that is not valid JSON instead fails
with the distinct decode error. -/
theorem C5_missing_root_keys :
    (∀ (fields : List (String × Json)) (strict : Bool),
        (fields.find? (fun kv => kv.1 == "messages") = none ∨
         fields.find? (fun kv => kv.1 == "busMetadata") = none) →
        load_string (.ok (.obj fields)) strict = .error (.valueError rootKeysErrMsg)) ∧
    (∀ strict : Bool, load_string (.error ()) strict = .error .jsonDecodeError) ∧
    (∀ msg : String, (PyErr.jsonDecodeError : PyErr) ≠ .valueError msg) := by
  refine ⟨?_, fun _ => rfl, fun msg h => by cases h⟩
  intro fields strict h
  have hhc : ∃ k, headerCore (.ok (.obj fields)) = .error (.keyError k) := by
    simp only [headerCore, mapError_ok, ok_bind]
    cases hm : fields.find? (fun kv => kv.1 == "messages") with
    | none => exact ⟨"messages", by simp [pySubscript, hm]⟩
    | some kv =>
        cases h with
        | inl h1 => rw [h1] at hm; cases hm
        | inr h2 => exact ⟨"busMetadata", by simp [pySubscript, hm, h2]⟩
  obtain ⟨k, hk⟩ := hhc
  have hlh : loadHeader (.ok (.obj fields)) = .error (.valueError rootKeysErrMsg) := by
    simp [loadHeader, hk]
  simp [load_string, hlh]

/-- Witness for C5: the concrete document missing `messages`, and invalid
JSON text. -/
theorem C5_missing_root_keys_witness :
    load_string (.ok docC5) true = .error (.valueError rootKeysErrMsg) ∧
    load_string (.error ()) true = .error .jsonDecodeError :=
  ⟨C5_missing_root_keys.1 [("busMetadata", .obj [])] true (Or.inl rfl),
   C5_missing_root_keys.2.1 true⟩

/-- C7 counterexample: `docC7`'s `messages` record contains a `name` key
(value `""`), yet the bus sequence of the produced database is empty — the
claim demands exactly one entry holding that key's value. -/
theorem C7_counterexample :
    pyContains (.obj [("name", .str "")]) "name" = .ok true ∧
    (load_string (.ok docC7) true).map (fun db => (db.buses, db.version)) =
      .ok ([], "0") :=
  ⟨rfl, rfl⟩

/-- C7 (amended): the produced database always carries version `"0"`; its bus
sequence is `[v]` when the `messages` record contains a `name` key whose
value `v` is truthy, and empty when the key is absent or its value is falsy
(such as the empty string). -/
theorem C7_bus_list_and_version :
    ∀ (input : Except Unit Json) (strict : Bool) (db : InternalDatabase),
      load_string input strict = .ok db →
      db.version = "0" ∧
      ∀ mj, loadHeader input = .ok mj →
        ((pyContains mj "name" = .ok false → db.buses = []) ∧
         (∀ v, pyContains mj "name" = .ok true → pySubscript mj "name" = .ok v →
            db.buses = (if v.truthy then [v] else []))) := by
  intro input strict db h
  simp only [load_string, bind_ok_iff, ok_bind, Except.ok.injEq] at h
  obtain ⟨mj, hmj, hasName, hhn, bus, hbus, entries, hent, result, hres, hdb⟩ := h
  subst hdb
  refine ⟨rfl, ?_⟩
  intro mj' hmj'
  rw [hmj] at hmj'
  injection hmj' with e
  subst e
  constructor
  · intro hF
    rw [hhn] at hF
    injection hF with e'
    subst e'
    simp only [readBusName, Bool.false_eq_true, if_false, Except.ok.injEq] at hbus
    subst hbus
    rfl
  · intro v hT hv
    rw [hhn] at hT
    injection hT with e'
    subst e'
    simp only [readBusName, if_true, bind_ok_iff, ok_bind, Except.ok.injEq] at hbus
    obtain ⟨v', hv', hbus⟩ := hbus
    rw [hv] at hv'
    injection hv' with e''
    subst e''
    subst hbus
    rfl

/-- Witness for C7: the truthy bus name of `docC2`. -/
theorem C7_bus_list_and_version_witness :
    dbC2.version = "0" ∧ dbC2.buses = [.str "bus0"] :=
  ⟨(C7_bus_list_and_version (.ok docC2) true dbC2 rfl).1,
   ((C7_bus_list_and_version (.ok docC2) true dbC2 rfl).2 mjC2 rfl).2 (.str "bus0") rfl rfl⟩

/-! ## Dictionary-inversion lemmas (for C6) -/

theorem dictFind_map_other (t : List (PyKey × String)) (k k' : PyKey) (v : String)
    (hne : k' ≠ k) :
    dictFind (t.map (fun e => if e.1 == k then (e.1, v) else e)) k' = dictFind t k' := by
  induction t with
  | nil => rfl
  | cons e t ih =>
      simp only [List.map_cons]
      by_cases hek : e.1 = k
      · have h2 : (e.1 == k') = false := by
          rw [beq_eq_false_iff_ne, hek]
          exact fun h => hne h.symm
        simp only [dictFind] at ih ⊢
        rw [if_pos (beq_iff_eq.mpr hek),
          List.find?_cons_of_neg _ (by simp [h2]),
          List.find?_cons_of_neg _ (by simp [h2])]
        exact ih
      · rw [if_neg (by simp [hek])]
        by_cases hk2 : e.1 = k'
        · simp only [dictFind]
          rw [List.find?_cons_of_pos _ (by simp [hk2]),
            List.find?_cons_of_pos _ (by simp [hk2])]
        · simp only [dictFind] at ih ⊢
          rw [List.find?_cons_of_neg _ (by simp [hk2]),
            List.find?_cons_of_neg _ (by simp [hk2])]
          exact ih

theorem dictFind_map_hit (t : List (PyKey × String)) (k : PyKey) (v : String)
    (hany : t.any (fun e => e.1 == k) = true) :
    dictFind (t.map (fun e => if e.1 == k then (e.1, v) else e)) k = some v := by
  induction t with
  | nil => simp at hany
  | cons e t ih =>
      simp only [List.any_cons, Bool.or_eq_true] at hany
      simp only [List.map_cons]
      by_cases hek : e.1 = k
      · simp only [dictFind]
        rw [if_pos (beq_iff_eq.mpr hek), List.find?_cons_of_pos _ (by simp [hek])]
        rfl
      · have h1 : (e.1 == k) = false := by simp [hek]
        rw [if_neg (by simp [hek])]
        have hany' : t.any (fun e => e.1 == k) = true := by
          rcases hany with h | h
          · rw [h1] at h; cases h
          · exact h
        simp only [dictFind] at ih ⊢
        rw [List.find?_cons_of_neg _ (by simp [hek])]
        exact ih hany'

theorem dictFind_dictUpd (m : List (PyKey × String)) (k : PyKey) (v : String) (k' : PyKey) :
    dictFind (dictUpd m k v) k' = if k' = k then some v else dictFind m k' := by
  unfold dictUpd
  by_cases hany : m.any (fun e => e.1 == k) = true
  · rw [if_pos hany]
    by_cases hk' : k' = k
    · subst hk'
      rw [if_pos rfl]
      exact dictFind_map_hit _ _ _ hany
    · rw [if_neg hk']
      exact dictFind_map_other m k k' v hk'
  · rw [if_neg hany]
    have hfnone : m.find? (fun e => e.1 == k) = none :=
      List.find?_eq_none.mpr (fun x hx hpx => hany (List.any_eq_true.mpr ⟨x, hx, hpx⟩))
    by_cases hk' : k' = k
    · subst hk'
      rw [if_pos rfl]
      simp [dictFind, List.find?_append, hfnone]
    · rw [if_neg hk']
      have hsing : (k == k') = false := by
        rw [beq_eq_false_iff_ne]
        exact fun h => hk' h.symm
      simp [dictFind, List.find?_append, hsing]

/-- Characterisation of the label-inversion fold: the final table answers a
key lookup with the label of the LAST entry (in record order) whose raw value
denotes that key, falling back to the initial table. -/
theorem invert_fold_find (entries : List (String × Json)) :
    ∀ (m0 tbl : List (PyKey × String)),
      entries.foldlM (fun (tbl : List (PyKey × String)) (kv : String × Json) =>
        match kv.2.pyKey with
        | some pk => Except.ok (dictUpd tbl pk kv.1)
        | none => Except.error PyErr.typeError) m0 = .ok tbl →
      ∀ pk, dictFind tbl pk =
        match entries.reverse.find? (fun kv => kv.2.pyKey == some pk) with
        | some kv => some kv.1
        | none => dictFind m0 pk := by
  induction entries with
  | nil =>
      intro m0 tbl h pk
      simp only [List.foldlM_nil] at h
      injection h with h
      subst h
      rfl
  | cons e es ih =>
      intro m0 tbl h pk
      rw [List.foldlM_cons] at h
      rw [bind_ok_iff] at h
      obtain ⟨m1, hm1, hrest⟩ := h
      cases hpk : e.2.pyKey with
      | none => rw [hpk] at hm1; cases hm1
      | some pkE =>
          rw [hpk] at hm1
          injection hm1 with hm1
          subst hm1
          have := ih _ tbl hrest pk
          rw [this]
          simp only [List.reverse_cons, List.find?_append]
          cases hfind : es.reverse.find? (fun kv => kv.2.pyKey == some pk) with
          | some kv => rfl
          | none =>
              simp only [Option.none_or]
              by_cases hpe : pkE = pk
              · subst hpe
                rw [List.find?_cons_of_pos _ (by simp [hpk])]
                rw [dictFind_dictUpd, if_pos rfl]
              · have : (e.2.pyKey == some pk) = false := by
                  rw [hpk]
                  simp [hpe]
                rw [List.find?_cons_of_neg _ (by simp [this]), dictFind_dictUpd,
                  if_neg (fun h => hpe h.symm)]
                rfl

/-- C6: a signal whose record carries a (non-empty, per C10) label→value
table `value_description` gets `choices` equal to the inverted value→label
mapping: looking up a raw value yields the label of the LAST entry of the
table (in record iteration order) denoting that value — later entries win on
collisions. -/
theorem C6_value_description_inversion :
    ∀ (signal_json : Json) (name : String) (vd : List (String × Json)) (s : Signal),
      _get_value signal_json "value_description" .null = .ok (.obj vd) →
      vd ≠ [] →
      _load_signal signal_json name = .ok s →
      ∃ tbl, s.choices = some tbl ∧
        ∀ pk : PyKey,
          dictFind tbl pk =
            (vd.reverse.find? (fun kv => kv.2.pyKey == some pk)).map (fun kv => kv.1) := by
  intro signal_json name vd s hvd hne h
  obtain ⟨offsetRaw, offset, endianRaw, vdRaw, labels, start, muxIdRaw,
    _, _, _, hvd', hlab, _, _, _, _, _, hch, _, _, _⟩ := load_signal_fields h
  rw [hvd] at hvd'
  injection hvd' with hvd''
  subst hvd''
  have htr : (Json.obj vd).truthy = true := by
    simpa [Json.truthy, List.isEmpty_iff] using hne
  simp only [_invert_value_description, htr, if_true, pyItems, ok_bind, bind_ok_iff,
    Except.ok.injEq] at hlab
  obtain ⟨tbl, htbl, hlab⟩ := hlab
  refine ⟨tbl, by rw [hch, ← hlab], ?_⟩
  intro pk
  have := invert_fold_find vd [] tbl htbl pk
  rw [this]
  cases vd.reverse.find? (fun kv => kv.2.pyKey == some pk) <;> rfl

/-- Witness for C6: `{"OFF": 0, "ON": 1}` inverts to `{0: "OFF", 1: "ON"}`. -/
theorem C6_value_description_inversion_witness :
    sigC6.choices = some [(PyKey.knum 0, "OFF"), (PyKey.knum 1, "ON")] := by
  obtain ⟨tbl, htbl, _⟩ :=
    C6_value_description_inversion recC6 "S" [("OFF", .num 0), ("ON", .num 1)] sigC6
      rfl (List.cons_ne_nil _ _) rfl
  have hv : sigC6.choices = some [(PyKey.knum 0, "OFF"), (PyKey.knum 1, "ON")] := rfl
  exact hv

/-! ## Multiplexer-resolution lemmas (for C4) -/

theorem set_mux_signal_is_multiplexer (mn : String) (s : Signal) :
    (_set_mux_signal mn s).is_multiplexer = s.is_multiplexer := by
  unfold _set_mux_signal
  split <;> rfl

theorem set_mux_signal_name (mn : String) (s : Signal) :
    (_set_mux_signal mn s).name = s.name := by
  unfold _set_mux_signal
  split <;> rfl

theorem set_mux_signal_ids (mn : String) (s : Signal) :
    (_set_mux_signal mn s).multiplexer_ids = s.multiplexer_ids := by
  unfold _set_mux_signal
  split <;> rfl

theorem set_mux_signal_muxIdsTruthy (mn : String) (s : Signal) :
    muxIdsTruthy (_set_mux_signal mn s) = muxIdsTruthy s := by
  unfold muxIdsTruthy
  rw [set_mux_signal_ids]

theorem set_mux_signal_of_truthy (mn : String) (s : Signal) (h : muxIdsTruthy s = true) :
    (_set_mux_signal mn s).multiplexer_signal = some mn := by
  unfold _set_mux_signal
  rw [if_pos h]

/-- The scan of odin.py lines 119–122 keeps the name of the LAST signal
marked `is_multiplexer`. -/
theorem mux_scan_eq (signals : List Signal) :
    ∀ init : Option String,
      signals.foldl (fun acc s => if s.is_multiplexer then some s.name else acc) init =
        match signals.reverse.find? (fun s => s.is_multiplexer) with
        | some sM => some sM.name
        | none => init := by
  induction signals with
  | nil => intro init; rfl
  | cons a t ih =>
      intro init
      rw [List.foldl_cons, ih]
      simp only [List.reverse_cons, List.find?_append]
      cases hf : t.reverse.find? (fun s => s.is_multiplexer) with
      | some sM => rfl
      | none =>
          simp only [Option.none_or]
          by_cases ha : a.is_multiplexer
          · rw [List.find?_cons_of_pos _ ha, if_pos ha]
          · rw [List.find?_cons_of_neg _ (by simp [ha]), if_neg (by simp [ha])]
            rfl

theorem mapM_ok_mem {A B : Type} (f : A → Except PyErr B) :
    ∀ (l : List A) (r : List B), l.mapM f = .ok r → ∀ b ∈ r, ∃ a ∈ l, f a = .ok b := by
  intro l
  induction l with
  | nil =>
      intro r h b hb
      rw [List.mapM_nil] at h
      injection h with h
      subst h
      cases hb
  | cons a t ih =>
      intro r h b hb
      rw [List.mapM_cons] at h
      rw [bind_ok_iff] at h
      obtain ⟨x, hx, h⟩ := h
      rw [bind_ok_iff] at h
      obtain ⟨xs, hxs, h⟩ := h
      injection h with h
      subst h
      rcases List.mem_cons.mp hb with rfl | hb
      · exact ⟨a, List.mem_cons_self a t, hx⟩
      · obtain ⟨a', ha', hfa⟩ := ih xs hxs b hb
        exact ⟨a', List.mem_cons_of_mem _ ha', hfa⟩

/-- Every signal coming out of `_parse_signals` has `multiplexer_signal`
unset. -/
theorem parse_signals_mux_unset {signals_json : Json} {sigs : List Signal}
    (h : _parse_signals signals_json = .ok sigs) :
    ∀ s ∈ sigs, s.multiplexer_signal = none := by
  intro s hs
  simp only [_parse_signals, bind_ok_iff, ok_bind] at h
  obtain ⟨items, hitems, hmap⟩ := h
  obtain ⟨kv, _, hload⟩ := mapM_ok_mem _ _ _ hmap s hs
  obtain ⟨_, _, _, _, _, _, _, _, _, _, _, _, _, _, _, _, _, _, hms, _, _⟩ :=
    load_signal_fields hload
  exact hms

/-- Unpacking a successful `_load_message` run: the raw length, the parsed
signal list, the multiplexer assignment and the length resolution. -/
theorem load_message_fields {message : Json} {name : String} {bus : Option Json}
    {strict : Bool} {msg : Message}
    (h : _load_message message name bus strict = .ok msg) :
    ∃ lengthRaw sigsRaw sigs0,
      _get_value message "length_bytes" (.str "auto") = .ok lengthRaw ∧
      _get_value message "signals" (.obj []) = .ok sigsRaw ∧
      _parse_signals sigsRaw = .ok sigs0 ∧
      msg.signals = _assign_multiplexer sigs0 ∧
      _resolve_length lengthRaw (_assign_multiplexer sigs0) = .ok msg.length ∧
      msg.name = name := by
  simp only [_load_message, bind_ok_iff, ok_bind, Except.ok.injEq] at h
  obtain ⟨fidRaw, hfidR, fid, hfid, lengthRaw, hlenR, cycRaw, hcycR, cyc, hcyc,
    sendRaw, hsendR, snd, hsnd, stRaw, hstR, sigsRaw, hsigsR, sigs0, hsigs0,
    len, hlen, hmsg⟩ := h
  subst hmsg
  exact ⟨lengthRaw, sigsRaw, sigs0, hlenR, hsigsR, hsigs0, rfl, hlen, rfl⟩

/-- C4 counterexample: in the message built from `recC4`, the last (and only)
signal marked `is_multiplexer` is named `""`; the signal `S` has the
non-empty `multiplexer_ids` `[2]`, yet its `multiplexer_signal` stays unset —
the claim demands it be set to the multiplexer's name.  (`if multiplexer:` is
Python truthiness, which is false for the empty name.) -/
theorem C4_counterexample :
    (_load_message recC4 "M" none true).map
        (fun m => m.signals.map
          (fun s => (s.name, s.is_multiplexer, s.multiplexer_ids, s.multiplexer_signal))) =
      .ok [("", true, none, none), ("S", false, some [2], none)] := rfl

/-- C4 (amended): in every built message, the LAST signal marked
`is_multiplexer` is the recognized multiplexer and — provided its name is
non-empty — every signal with a non-empty `multiplexer_ids` gets
`multiplexer_signal` set to that name; if no signal is marked, or the last
marked signal's name is empty, every signal's `multiplexer_signal` stays
unset.  A signal with a non-null `mux_id` field gets
`multiplexer_ids = [mux_id]` and `is_multiplexed = true`. -/
theorem C4_multiplexer_resolution :
    (∀ (message : Json) (name : String) (bus : Option Json) (strict : Bool) (msg : Message),
        _load_message message name bus strict = .ok msg →
        ((∀ last, msg.signals.reverse.find? (fun s => s.is_multiplexer) = some last →
            last.name ≠ "" →
            ∀ s ∈ msg.signals, muxIdsTruthy s = true →
              s.multiplexer_signal = some last.name) ∧
         (msg.signals.reverse.find? (fun s => s.is_multiplexer) = none →
            ∀ s ∈ msg.signals, s.multiplexer_signal = none) ∧
         (∀ last, msg.signals.reverse.find? (fun s => s.is_multiplexer) = some last →
            last.name = "" →
            ∀ s ∈ msg.signals, s.multiplexer_signal = none))) ∧
    (∀ (signal_json : Json) (nm : String) (s : Signal) (muxIdRaw : Json),
        _load_signal signal_json nm = .ok s →
        _get_value signal_json "mux_id" .null = .ok muxIdRaw →
        muxIdRaw ≠ .null →
        ∃ m, pyInt muxIdRaw = .ok m ∧
          s.multiplexer_ids = some [m] ∧ s.is_multiplexed = true) := by
  constructor
  · intro message name bus strict msg h
    obtain ⟨lengthRaw, sigsRaw, sigs0, _, _, hparse, hsigs, _, _⟩ := load_message_fields h
    have hunset := parse_signals_mux_unset hparse
    have hscan := mux_scan_eq sigs0 none
    cases hf : sigs0.reverse.find? (fun s => s.is_multiplexer) with
    | none =>
        have hassign : _assign_multiplexer sigs0 = sigs0 := by
          unfold _assign_multiplexer
          rw [hscan, hf]
        rw [hassign] at hsigs
        refine ⟨?_, ?_, ?_⟩
        · intro last hlast _ s hs _
          rw [hsigs, hf] at hlast
          cases hlast
        · intro _ s hs
          rw [hsigs] at hs
          exact hunset s hs
        · intro last hlast _ s hs
          rw [hsigs, hf] at hlast
          cases hlast
    | some sM =>
        by_cases hname : sM.name = ""
        · have hassign : _assign_multiplexer sigs0 = sigs0 := by
            unfold _assign_multiplexer
            rw [hscan, hf]
            simp [hname]
          rw [hassign] at hsigs
          refine ⟨?_, ?_, ?_⟩
          · intro last hlast hne s hs _
            rw [hsigs, hf] at hlast
            injection hlast with e
            subst e
            exact absurd hname hne
          · intro hnone
            rw [hsigs, hf] at hnone
            cases hnone
          · intro last _ _ s hs
            rw [hsigs] at hs
            exact hunset s hs
        · have hassign :
              _assign_multiplexer sigs0 = sigs0.map (_set_mux_signal sM.name) := by
            unfold _assign_multiplexer
            rw [hscan, hf]
            simp [hname]
          rw [hassign] at hsigs
          have hcomp : ((fun s : Signal => s.is_multiplexer) ∘ _set_mux_signal sM.name) =
              (fun s : Signal => s.is_multiplexer) :=
            funext fun s => set_mux_signal_is_multiplexer _ _
          have hfind' : (sigs0.map (_set_mux_signal sM.name)).reverse.find?
              (fun s => s.is_multiplexer) = some (_set_mux_signal sM.name sM) := by
            rw [← List.map_reverse, List.find?_map, hcomp, hf]
            rfl
          refine ⟨?_, ?_, ?_⟩
          · intro last hlast _ s hs hmux
            rw [hsigs] at hlast hs
            rw [hfind'] at hlast
            injection hlast with e
            subst e
            obtain ⟨s0, hs0, rfl⟩ := List.mem_map.mp hs
            rw [set_mux_signal_muxIdsTruthy] at hmux
            rw [set_mux_signal_of_truthy _ _ hmux, set_mux_signal_name]
          · intro hnone
            rw [hsigs, hfind'] at hnone
            cases hnone
          · intro last hlast hempty s hs
            rw [hsigs, hfind'] at hlast
            injection hlast with e
            subst e
            rw [set_mux_signal_name] at hempty
            exact absurd hempty hname
  · intro signal_json nm s muxIdRaw h hmr hne
    obtain ⟨_, _, _, _, _, _, muxIdRaw', _, _, _, _, _, _, hmr', _, _, _, _, _, _, hc2⟩ :=
      load_signal_fields h
    rw [hmr] at hmr'
    injection hmr' with e
    subst e
    exact hc2 hne

/-- Witness for C4: in the message built from `recC4b`, the multiplexer is
`M` and the multiplexed signal `S` receives `multiplexer_signal = "M"`. -/
theorem C4_multiplexer_resolution_witness :
    _load_message recC4b "MSG" none true = .ok msgC4 ∧
    muxC4.name = "M" ∧ muxIdsTruthy sigC4S = true ∧
    sigC4S.multiplexer_signal = some "M" :=
  ⟨rfl, rfl, rfl,
    (C4_multiplexer_resolution.1 recC4b "MSG" none true msgC4 rfl).1 muxC4 rfl
      (by decide) sigC4S (List.mem_cons_of_mem _ (List.mem_cons_self _ _)) rfl⟩

/-! ## Node-set lemmas (for C9) -/

theorem collectSignalNodes_mem (signals : List Signal) :
    ∀ (ns : Finset String) (n : String),
      n ∈ collectSignalNodes ns signals ↔ n ∈ ns ∨ ∃ s ∈ signals, n ∈ s.receivers := by
  induction signals with
  | nil => intro ns n; simp [collectSignalNodes]
  | cons a t ih =>
      intro ns n
      unfold collectSignalNodes at ih ⊢
      rw [List.foldl_cons, ih]
      simp only [Finset.mem_union, List.mem_toFinset, List.mem_cons, exists_eq_or_imp,
        or_assoc]

theorem loadStep_mem {bus : Option Json} {strict : Bool}
    {acc acc' : List Message × Finset String} {entry : String × Json}
    (h : loadStep bus strict acc entry = .ok acc') :
    ∃ m, _load_message entry.2 entry.1 bus strict = .ok m ∧
      acc'.1 = acc.1 ++ [m] ∧
      ∀ n, n ∈ acc'.2 ↔ n ∈ acc.2 ∨ n ∈ m.senders ∨ ∃ s ∈ m.signals, n ∈ s.receivers := by
  simp only [loadStep, bind_ok_iff, ok_bind, Except.ok.injEq] at h
  obtain ⟨m, hm, hacc⟩ := h
  refine ⟨m, hm, by rw [← hacc], ?_⟩
  intro n
  rw [← hacc]
  show n ∈ collectSignalNodes (acc.2 ∪ m.senders.toFinset) m.signals ↔ _
  rw [collectSignalNodes_mem]
  simp only [Finset.mem_union, List.mem_toFinset, or_assoc]

theorem fold_load_mem {bus : Option Json} {strict : Bool} :
    ∀ (entries : List (String × Json)) (acc res : List Message × Finset String),
      entries.foldlM (loadStep bus strict) acc = .ok res →
      ∃ newMs, res.1 = acc.1 ++ newMs ∧
        (∀ n, n ∈ res.2 ↔ n ∈ acc.2 ∨
          ∃ m ∈ newMs, n ∈ m.senders ∨ ∃ s ∈ m.signals, n ∈ s.receivers) := by
  intro entries
  induction entries with
  | nil =>
      intro acc res h
      rw [List.foldlM_nil] at h
      injection h with h
      subst h
      exact ⟨[], by simp, fun n => by simp⟩
  | cons e es ih =>
      intro acc res h
      rw [List.foldlM_cons, bind_ok_iff] at h
      obtain ⟨acc1, hstep, hrest⟩ := h
      obtain ⟨m, hm, h1, h2⟩ := loadStep_mem hstep
      obtain ⟨newMs, hres1, hres2⟩ := ih acc1 res hrest
      refine ⟨m :: newMs, ?_, ?_⟩
      · rw [hres1, h1, List.append_assoc]
        rfl
      · intro n
        rw [hres2 n, h2 n]
        simp only [List.mem_cons, exists_eq_or_imp, or_assoc]

theorem recv_exists_transfer {l l' : List Signal}
    (h : List.Forall₂ (fun s s' : Signal => s.receivers.Perm s'.receivers) l l')
    (n : String) :
    (∃ s ∈ l, n ∈ s.receivers) ↔ (∃ s' ∈ l', n ∈ s'.receivers) := by
  induction h with
  | nil => simp
  | cons hp hrest ih =>
      simp only [List.mem_cons, exists_eq_or_imp]
      exact or_congr hp.mem_iff ih

theorem node_exists_transfer {ms ms' : List Message}
    (h : List.Forall₂ sameParticipants ms ms') (n : String) :
    (∃ m ∈ ms, n ∈ m.senders ∨ ∃ s ∈ m.signals, n ∈ s.receivers) ↔
    (∃ m' ∈ ms', n ∈ m'.senders ∨ ∃ s ∈ m'.signals, n ∈ s.receivers) := by
  induction h with
  | nil => simp
  | cons hp hrest ih =>
      simp only [List.mem_cons, exists_eq_or_imp]
      exact or_congr (or_congr hp.1.mem_iff (recv_exists_transfer hp.2 n)) ih

/-- C9: the produced node set contains exactly the names occurring in some
message's senders or in some signal's receivers (set semantics, independent
of input order: two successful loads whose messages carry the same
participants up to list order produce equal node sets). -/
theorem C9_node_set :
    (∀ (input : Except Unit Json) (strict : Bool) (db : InternalDatabase),
        load_string input strict = .ok db →
        ∀ n, n ∈ db.nodes ↔
          ∃ m ∈ db.messages, n ∈ m.senders ∨ ∃ s ∈ m.signals, n ∈ s.receivers) ∧
    (∀ (input input' : Except Unit Json) (strict strict' : Bool)
        (db db' : InternalDatabase),
        load_string input strict = .ok db →
        load_string input' strict' = .ok db' →
        List.Forall₂ sameParticipants db.messages db'.messages →
        db.nodes = db'.nodes) := by
  have part1 : ∀ (input : Except Unit Json) (strict : Bool) (db : InternalDatabase),
      load_string input strict = .ok db →
      ∀ n, n ∈ db.nodes ↔
        ∃ m ∈ db.messages, n ∈ m.senders ∨ ∃ s ∈ m.signals, n ∈ s.receivers := by
    intro input strict db h n
    simp only [load_string, bind_ok_iff, ok_bind, Except.ok.injEq] at h
    obtain ⟨mj, hmj, hasName, hhn, bus, hbus, entries, hent, result, hres, hdb⟩ := h
    subst hdb
    obtain ⟨newMs, h1, h2⟩ := fold_load_mem entries ([], ∅) result hres
    show n ∈ result.2 ↔ ∃ m ∈ result.1, n ∈ m.senders ∨ ∃ s ∈ m.signals, n ∈ s.receivers
    have hmem := h2 n
    simp only [Finset.not_mem_empty, false_or] at hmem
    rw [hmem, h1]
    simp only [List.nil_append]
  exact ⟨part1, fun input input' strict strict' db db' h h' hrel =>
    Finset.ext fun n => by
      rw [part1 _ _ _ h n, part1 _ _ _ h' n]
      exact node_exists_transfer hrel n⟩

/-- Witness for C9: `docC9` (senders `["A","B"]`, receivers `["B","C"]`)
yields the node set `{A, B, C}`. -/
theorem C9_node_set_witness :
    load_string (.ok docC9) true = .ok dbC9 ∧
    dbC9.nodes = {"A", "B", "C"} ∧
    "A" ∈ dbC9.nodes :=
  ⟨rfl, by decide,
    (C9_node_set.1 (.ok docC9) true dbC9 rfl "A").mpr
      ⟨msgC9, List.mem_cons_self _ _, Or.inl (by decide)⟩⟩

/-! ## Length-inference lemmas (for C3) -/

theorem mapM_key_spec :
    ∀ {sigs : List Signal} {keyed : List (Signal × Int)},
      sigs.mapM (fun s =>
        match start_bit s with
        | some k => Except.ok (s, k)
        | none => Except.error PyErr.typeError) = .ok keyed →
      keyed.map Prod.fst = sigs ∧ ∀ p ∈ keyed, start_bit p.1 = some p.2 := by
  intro sigs
  induction sigs with
  | nil =>
      intro keyed h
      rw [List.mapM_nil] at h
      injection h with h
      subst h
      exact ⟨rfl, by simp⟩
  | cons a t ih =>
      intro keyed h
      rw [List.mapM_cons, bind_ok_iff] at h
      obtain ⟨x, hx, h⟩ := h
      rw [bind_ok_iff] at h
      obtain ⟨xs, hxs, h⟩ := h
      injection h with h
      subst h
      obtain ⟨hmap, hkeys⟩ := ih hxs
      cases hk : start_bit a with
      | none => rw [hk] at hx; cases hx
      | some k =>
          rw [hk] at hx
          injection hx with hx
          subst hx
          constructor
          · simp [hmap]
          · intro p hp
            rcases List.mem_cons.mp hp with rfl | hp
            · exact hk
            · exact hkeys p hp

theorem sorted_le_getLast {α : Type} (key : α → Int) :
    ∀ (l : List α), List.Sorted (fun a b => key a ≤ key b) l →
      ∀ x ∈ l, ∀ last, l.getLast? = some last → key x ≤ key last := by
  intro l
  induction l with
  | nil => intro _ x hx; cases hx
  | cons a t ih =>
      intro hs x hx last hlast
      rcases List.sorted_cons.mp hs with ⟨ha, ht⟩
      cases t with
      | nil =>
          rcases List.mem_cons.mp hx with rfl | hx
          · have he : some x = some last := hlast
            injection he with he
            rw [he]
          · cases hx
      | cons b t' =>
          rw [List.getLast?_cons_cons] at hlast
          have hlastmem : last ∈ b :: t' := List.mem_of_mem_getLast? hlast
          rcases List.mem_cons.mp hx with rfl | hx
          · exact ha last hlastmem
          · exact ih ht x hx last hlast

/-- A successful `auto` length inference: the result covers the signal whose
canonical start bit is greatest, and every signal has a canonical start
bit. -/
theorem resolve_auto_length_spec {signals : List Signal} {len : Int}
    (hne : signals ≠ [])
    (h : _resolve_auto_length signals = .ok len) :
    ∃ smax l,
      (∃ s ∈ signals, s.start = some smax ∧ s.length = l) ∧
      (∀ s ∈ signals, ∃ k, s.start = some k ∧ k ≤ smax) ∧
      len = (smax + l + 7) / 8 := by
  simp only [_resolve_auto_length, bind_ok_iff, ok_bind] at h
  obtain ⟨keyed, hkeyed, h⟩ := h
  obtain ⟨hmap, hkeys⟩ := mapM_key_spec hkeyed
  have hkeyedne : keyed ≠ [] := by
    intro he
    rw [he] at hmap
    exact hne hmap.symm
  have hperm := List.perm_insertionSort (fun a b : Signal × Int => a.2 ≤ b.2) keyed
  have hsorted : List.Sorted (fun a b : Signal × Int => a.2 ≤ b.2)
      (keyed.insertionSort (fun a b => a.2 ≤ b.2)) :=
    @List.sorted_insertionSort _ (fun a b : Signal × Int => a.2 ≤ b.2) _
      ⟨fun a b => le_total a.2 b.2⟩ ⟨fun _ _ _ hab hbc => le_trans hab hbc⟩ keyed
  cases hlastq : (keyed.insertionSort (fun a b => a.2 ≤ b.2)).getLast? with
  | none =>
      rw [hlastq] at h
      cases h
  | some last =>
      rw [hlastq] at h
      injection h with h
      have hlastmem : last ∈ keyed := hperm.subset (List.mem_of_mem_getLast? hlastq)
      have hlaststart : last.1.start = some last.2 := hkeys last hlastmem
      refine ⟨last.2, last.1.length,
        ⟨last.1, ?_, hlaststart, rfl⟩, ?_, h.symm⟩
      · rw [← hmap]
        exact List.mem_map_of_mem Prod.fst hlastmem
      · intro s hs
        rw [← hmap] at hs
        obtain ⟨p, hp, rfl⟩ := List.mem_map.mp hs
        refine ⟨p.2, hkeys p hp, ?_⟩
        have hp' : p ∈ keyed.insertionSort (fun a b => a.2 ≤ b.2) := hperm.mem_iff.mpr hp
        exact sorted_le_getLast (fun q : Signal × Int => q.2) _ hsorted p hp' last hlastq

/-- C3: when a message's raw `length_bytes` is the sentinel `auto` and the
signal list is non-empty, the resulting length is `(s + l + 7) / 8` — i.e.
`ceil((s + l) / 8)` — where `s` is the greatest canonical start bit among the
message's signals and `l` that signal's bit length; with an empty signal list
the length is 0; a non-`auto` raw value is parsed as an integer verbatim. -/
theorem C3_length_resolution :
    (∀ (message : Json) (name : String) (bus : Option Json) (strict : Bool) (msg : Message),
        _load_message message name bus strict = .ok msg →
        _get_value message "length_bytes" (.str "auto") = .ok (.str "auto") →
        (msg.signals = [] → msg.length = 0) ∧
        (msg.signals ≠ [] →
          ∃ smax l,
            (∃ s ∈ msg.signals, s.start = some smax ∧ s.length = l) ∧
            (∀ s ∈ msg.signals, ∃ k, s.start = some k ∧ k ≤ smax) ∧
            msg.length = (smax + l + 7) / 8 ∧
            smax + l ≤ 8 * msg.length ∧ 8 * msg.length < smax + l + 8)) ∧
    (∀ (message : Json) (name : String) (bus : Option Json) (strict : Bool) (msg : Message)
        (lengthRaw : Json),
        _load_message message name bus strict = .ok msg →
        _get_value message "length_bytes" (.str "auto") = .ok lengthRaw →
        jsonStrEq lengthRaw "auto" = false →
        pyInt lengthRaw = .ok msg.length) := by
  constructor
  · intro message name bus strict msg h hauto
    obtain ⟨lengthRaw, sigsRaw, sigs0, hlenR, _, _, hsigs, hres, _⟩ := load_message_fields h
    rw [hauto] at hlenR
    injection hlenR with e
    subst e
    rw [← hsigs] at hres
    rw [show _resolve_length (.str "auto") msg.signals =
        (if msg.signals.isEmpty then Except.ok 0 else _resolve_auto_length msg.signals)
      from rfl] at hres
    constructor
    · intro hempty
      rw [hempty] at hres
      simp only [List.isEmpty_nil, if_true] at hres
      injection hres with hres
      exact hres.symm
    · intro hne
      rw [if_neg (by simp [List.isEmpty_iff, hne])] at hres
      obtain ⟨smax, l, hex, hmax, hlen⟩ := resolve_auto_length_spec hne hres
      exact ⟨smax, l, hex, hmax, hlen, by omega, by omega⟩
  · intro message name bus strict msg lengthRaw h hlr hne
    obtain ⟨lengthRaw', sigsRaw, sigs0, hlenR, _, _, hsigs, hres, _⟩ := load_message_fields h
    rw [hlr] at hlenR
    injection hlenR with e
    subst e
    simp only [_resolve_length, hne, Bool.false_eq_true, if_false] at hres
    exact hres

/-- Witness for C3: the two-signal message of `recC3` (bits `[0,8)` and
`[16,24)`, implicit length) is inferred to be 3 bytes long. -/
theorem C3_length_resolution_witness :
    _load_message recC3 "M" none true = .ok msgC3 ∧ msgC3.length = 3 :=
  ⟨rfl, by
    obtain ⟨smax, l, hex, hmax, hlen, hlow, hhigh⟩ :=
      (C3_length_resolution.1 recC3 "M" none true msgC3 rfl rfl).2 (List.cons_ne_nil _ _)
    exact rfl⟩
